import Mathlib

/-!
Verification of the mini graph-workflow engine (`app/engine` and
`app/storage`) against its natural-language specification.

The Python source is shallowly embedded:
* pydantic models become Lean structures;
* Python `float` values that take part in branch comparisons are modelled
  as `Rat` (the concrete thresholds in the spec, 0.79 / 0.8 / 0.81, compare
  identically as rationals and as doubles);
* Python exceptions (`KeyError`, `TypeError`, `AttributeError`) become an
  explicit error type threaded through `Except`; exception messages are
  modelled without the quoting characters of the originals;
* the engine's `while` loop becomes a fuel-indexed recursion `runLoop`
  built from a single-iteration function `stepRun`; a result of `.ok none`
  means the fuel ran out, i.e. the Python loop had not yet exited after
  that many iterations;
* `datetime.now()` is modelled as a logical clock (the number of log
  entries written so far) and `uuid.uuid4()` as an injected fresh
  identifier, since wall-clock time and randomness have no shallow
  counterpart; no claim depends on the actual values.
-/

/-- Python exception kinds raised by the embedded code: `KeyError` from
dict lookups and the stores/registry, `TypeError` from non-callable tool
registration or an order comparison against a non-number, and
`AttributeError` from `getattr` on a missing field. -/
inductive PyError where
  | keyError (msg : String)
  | typeError (msg : String)
  | attributeError (msg : String)
deriving DecidableEq, Repr

/-- Embedding of `CodeReviewState` (src/app/engine/models.py).  Numeric
fields are `Rat` / `Int`; `issues` entries keep the `line` and `message`
components of the Python dicts. -/
structure CodeReviewState where
  code : String
  functions : List String := []
  complexity : List (String × Int) := []
  issues : List (Int × String) := []
  suggestions : List String := []
  quality_score : Rat := 0
  threshold : Rat := 4/5
  iteration : Int := 0
deriving DecidableEq, Repr

/-- Result of `getattr(state, key)` as used by the branch decision: a
numeric value (float or int field) or a non-numeric attribute. -/
inductive AttrVal where
  | num (val : Rat)
  | nonNum
deriving DecidableEq, Repr

/-- Embedding of `getattr(state, key)` on a `CodeReviewState`: the three
numeric fields yield numbers, the remaining declared fields yield
non-numeric values, and any other name raises `AttributeError`
(modelled by `none`). -/
def CodeReviewState.getAttr (s : CodeReviewState) (k : String) : Option AttrVal :=
  if k = "code" then some .nonNum
  else if k = "functions" then some .nonNum
  else if k = "complexity" then some .nonNum
  else if k = "issues" then some .nonNum
  else if k = "suggestions" then some .nonNum
  else if k = "quality_score" then some (.num s.quality_score)
  else if k = "threshold" then some (.num s.threshold)
  else if k = "iteration" then some (.num (s.iteration : Rat))
  else none

/-- Python truthiness of an `Optional[str]`: `None` and the empty string
are falsy, every other string is truthy. -/
def strTruthy : Option String → Bool
  | none => false
  | some s => if s = "" then false else true

/-- Python `a or b` on `Optional[str]` values: `a` unless `a` is falsy. -/
def pyOr (a b : Option String) : Option String :=
  match a with
  | none => b
  | some s => if s = "" then b else some s

/-- Embedding of the operator dispatch inside `_decide_next_node`
(src/app/engine/engine.py, lines 71-83).  The four order comparisons raise
`TypeError` on a non-numeric left operand, Python `==` between a
non-number and a float is simply `False`, and a string that is none of
the five operators runs no comparison at all, leaving `is_ok` at its
initial `False`. -/
def evalCmp (op : String) (v : AttrVal) (t : Rat) : Except PyError Bool :=
  if op = ">=" then
    match v with
    | .num q => .ok (decide (t ≤ q))
    | .nonNum => .error (.typeError "unsupported comparison")
  else if op = ">" then
    match v with
    | .num q => .ok (decide (t < q))
    | .nonNum => .error (.typeError "unsupported comparison")
  else if op = "<=" then
    match v with
    | .num q => .ok (decide (q ≤ t))
    | .nonNum => .error (.typeError "unsupported comparison")
  else if op = "<" then
    match v with
    | .num q => .ok (decide (q < t))
    | .nonNum => .error (.typeError "unsupported comparison")
  else if op = "==" then
    match v with
    | .num q => .ok (decide (q = t))
    | .nonNum => .ok false
  else .ok false

/-- Embedding of `NodeConfig` (src/app/engine/models.py).  In the source,
`condition_op` is declared `Optional[Literal[">=", ">", "<=", "<", "=="]]`;
it is embedded as an arbitrary optional string so that the behaviour of
`_decide_next_node` on an operator outside that set is expressible, with
the pydantic `Literal` constraint available as `NodeConfig.opValid`. -/
structure NodeConfig where
  name : String
  tool : String
  next_node : Option String := none
  condition_key : Option String := none
  condition_op : Option String := none
  condition_value : Option Rat := none
  next_on_success : Option String := none
  next_on_failure : Option String := none
deriving DecidableEq, Repr

/-- Validation constraint imposed by the pydantic `Literal` type of
`condition_op`: a validated config carries one of the five operators or
nothing. -/
def NodeConfig.opValid (cfg : NodeConfig) : Prop :=
  cfg.condition_op = none ∨
    cfg.condition_op ∈ [some ">=", some ">", some "<=", some "<", some "=="]

/-- Embedding of `_decide_next_node` (src/app/engine/engine.py, lines
59-85).  A falsy `condition_key` is a plain linear edge; otherwise the
state attribute is read first, then a missing `condition_op` or
`condition_value` falls back to `next_node`, and otherwise the comparison
routes to `next_on_success` or to `next_on_failure or next_node`. -/
def decideNext (cfg : NodeConfig) (state : CodeReviewState) : Except PyError (Option String) :=
  if strTruthy cfg.condition_key = false then .ok cfg.next_node
  else
    match state.getAttr (cfg.condition_key.getD "") with
    | none => .error (.attributeError (cfg.condition_key.getD ""))
    | some v =>
      match cfg.condition_op, cfg.condition_value with
      | some op, some t =>
        match evalCmp op v t with
        | .error e => .error e
        | .ok b =>
          if b then .ok cfg.next_on_success
          else .ok (pyOr cfg.next_on_failure cfg.next_node)
      | _, _ => .ok cfg.next_node

/-- Specification-side reading of "value OP conditionValue" for the five
supported operators, written from the spec's words. -/
def condHolds (op : String) (v t : Rat) : Bool :=
  if op = ">=" then decide (t ≤ v)
  else if op = ">" then decide (t < v)
  else if op = "<=" then decide (v ≤ t)
  else if op = "<" then decide (v < t)
  else if op = "==" then decide (v = t)
  else false

/-- Embedding of `Graph` (src/app/engine/models.py): a start node and a
dict from node name to configuration, the dict as an association list. -/
structure Graph where
  id : String
  start_node : String
  nodes : List (String × NodeConfig)
deriving DecidableEq, Repr

/-- Python dict lookup on a string-keyed association list. -/
def dictGet {β : Type} : List (String × β) → String → Option β
  | [], _ => none
  | (k, v) :: rest, n => if k = n then some v else dictGet rest n

/-- Embedding of `ExecutionLogEntry` (src/app/engine/models.py); the
timestamp is the logical clock described in the file header, and
`state_snapshot` is the value of the state at logging time (`.dict()` in
the source rebuilds every container, so the snapshot is independent of
the live state). -/
structure ExecutionLogEntry where
  node : String
  timestamp : Nat
  state_snapshot : CodeReviewState
deriving DecidableEq, Repr

/-- Embedding of `GraphRun` (src/app/engine/models.py). -/
structure GraphRun where
  run_id : String
  graph_id : String
  current_node : Option String
  state : CodeReviewState
  log : List ExecutionLogEntry := []
  finished : Bool := false
deriving DecidableEq, Repr

/-- Type of registered tools as the engine uses them: a function from
state to state (the engine re-wraps any structurally compatible return
value into `CodeReviewState`, so the embedded tool type is exact). -/
def ToolFunc := CodeReviewState → CodeReviewState

/-- One iteration of the `while` body of `GraphEngine.run_graph`
(src/app/engine/engine.py, lines 25-54).  Runs whose loop condition is
false are fixed points.  The guard check precedes node execution; a
dangling current node and an unregistered tool raise `KeyError`; after a
node executes, the new state is logged and the branch decision either
advances `current_node` or terminates the run. -/
def stepRun (g : Graph) (tools : String → Option ToolFunc) (maxIter : Int)
    (run : GraphRun) : Except PyError GraphRun :=
  match run.current_node with
  | none => .ok run
  | some cur =>
    if run.finished then .ok run
    else if maxIter ≤ run.state.iteration then .ok { run with finished := true }
    else
      match dictGet g.nodes cur with
      | none => .error (.keyError cur)
      | some cfg =>
        match tools cfg.tool with
        | none => .error (.keyError ("Tool " ++ cfg.tool ++ " not registered"))
        | some f =>
          let st := f run.state
          let entry : ExecutionLogEntry :=
            { node := cfg.name, timestamp := run.log.length, state_snapshot := st }
          match decideNext cfg st with
          | .error e => .error e
          | .ok none =>
            .ok { run with
                  state := st,
                  log := run.log ++ [entry],
                  current_node := none,
                  finished := true }
          | .ok (some nn) =>
            .ok { run with
                  state := st,
                  log := run.log ++ [entry],
                  current_node := some nn }

/-- Fuel-indexed unfolding of the full `while` loop of `run_graph`: the
result is `some` the final run when the loop exits within `fuel`
iterations, `none` when the fuel is exhausted first (the Python loop is
still running), and an error when an iteration raises. -/
def runLoop (g : Graph) (tools : String → Option ToolFunc) (maxIter : Int) :
    Nat → GraphRun → Except PyError (Option GraphRun)
  | 0, run =>
    if run.current_node = none ∨ run.finished then .ok (some run) else .ok none
  | fuel + 1, run =>
    if run.current_node = none ∨ run.finished then .ok (some run)
    else
      match stepRun g tools maxIter run with
      | .error e => .error e
      | .ok r => runLoop g tools maxIter fuel r

/-- Iteration of `stepRun` an exact number of times, used to observe the
run mid-loop. -/
def iterRun (g : Graph) (tools : String → Option ToolFunc) (maxIter : Int) :
    Nat → GraphRun → Except PyError GraphRun
  | 0, run => .ok run
  | n + 1, run =>
    match stepRun g tools maxIter run with
    | .error e => .error e
    | .ok r => iterRun g tools maxIter n r

/-- Fresh run as built by `RunStore.create` and consumed by `run_graph`:
current node at the graph's start node, the given initial state, empty
log, not finished. -/
def initRun (g : Graph) (st : CodeReviewState) : GraphRun :=
  { run_id := "run-0", graph_id := g.id, current_node := some g.start_node,
    state := st, log := [], finished := false }

/-- Embedding of `GraphStore` (src/app/storage/memory_store.py). -/
structure GraphStore where
  graphs : List (String × Graph)
deriving DecidableEq, Repr

/-- Embedding of `GraphStore.get`: `KeyError` when the id is absent. -/
def GraphStore.get (gs : GraphStore) (gid : String) : Except PyError Graph :=
  match dictGet gs.graphs gid with
  | none => .error (.keyError ("Graph " ++ gid ++ " not found"))
  | some g => .ok g

/-- Embedding of `RunStore` (src/app/storage/memory_store.py): the run
dict plus the graph store handed to the constructor. -/
structure RunStore where
  graph_store : GraphStore
  runs : List (String × GraphRun)
deriving DecidableEq, Repr

/-- Embedding of `RunStore.create`.  The `uuid.uuid4()` call is modelled
by the injected identifier `rid` (see the file header).  The graph lookup
happens first, so on an unknown graph id the `KeyError` propagates before
any run is built or stored; the returned store is unchanged in that case. -/
def RunStore.create (rs : RunStore) (gid : String) (st : CodeReviewState)
    (rid : String) : Except PyError GraphRun × RunStore :=
  match rs.graph_store.get gid with
  | .error e => (.error e, rs)
  | .ok g =>
    let run : GraphRun :=
      { run_id := rid, graph_id := gid, current_node := some g.start_node,
        state := st, log := [], finished := false }
    (.ok run, { rs with runs := (rid, run) :: rs.runs })

/-- Python objects handed to `ToolRegistry.register`: callables and
everything else. -/
inductive PyObject where
  | callable (f : ToolFunc)
  | notCallable (repr : String)

/-- Embedding of `ToolRegistry` (src/app/engine/registry.py): the dict of
registered tools as a map. -/
structure ToolRegistry where
  tools : String → Option ToolFunc

/-- Embedding of `ToolRegistry.register`: a `TypeError` is raised before
the dict assignment for a non-callable, so the registry is returned
unchanged; a callable overwrites any previous entry under the name. -/
def ToolRegistry.register (r : ToolRegistry) (name : String) (func : PyObject) :
    Option PyError × ToolRegistry :=
  match func with
  | .notCallable _ => (some (.typeError "Tool must be callable"), r)
  | .callable f => (none, ⟨fun m => if m = name then some f else r.tools m⟩)

/-- Embedding of `ToolRegistry.get`: `KeyError` when the name is absent. -/
def ToolRegistry.get (r : ToolRegistry) (name : String) : Except PyError ToolFunc :=
  match r.tools name with
  | none => .error (.keyError ("Tool " ++ name ++ " not registered"))
  | some f => .ok f

/-- Base state used for concrete instances: pydantic defaults with empty
code. -/
def s0 : CodeReviewState :=
  { code := "" }

/-- State with a given quality score, as in the spec's branch examples. -/
def stQ (q : Rat) : CodeReviewState :=
  { s0 with quality_score := q }

/-- Branch node of the spec's concrete example: threshold 0.8 on
`quality_score` with both branch targets present. -/
def c1Cfg : NodeConfig :=
  { name := "score", tool := "score_tool", next_node := some "next",
    condition_key := some "quality_score", condition_op := some ">=",
    condition_value := some (4/5), next_on_success := some "done",
    next_on_failure := some "retry" }

/-- Same branch node with `next_on_failure` unset. -/
def c1CfgNoFail : NodeConfig :=
  { c1Cfg with next_on_failure := none }

/-- Helper: a key whose attribute is numeric is a real field name, hence
nonempty. -/
theorem getAttr_num_key_ne_empty {s : CodeReviewState} {k : String} {v : Rat}
    (h : s.getAttr k = some (.num v)) : k ≠ "" := by
  intro hk
  subst hk
  simp [CodeReviewState.getAttr] at h

/-- Helper: on a numeric attribute, the operator dispatch of the source
agrees with the spec-side comparison for every operator string. -/
theorem evalCmp_num (op : String) (v t : Rat) :
    evalCmp op (.num v) t = .ok (condHolds op v t) := by
  unfold evalCmp condHolds
  split_ifs <;> rfl

/-- Helper: the Python `or` fallback equals "next_on_failure if truthy,
else next_node". -/
theorem pyOr_eq_ite (a b : Option String) :
    pyOr a b = if strTruthy a = true then a else b := by
  cases a with
  | none => simp [pyOr, strTruthy]
  | some s =>
    by_cases hs : s = "" <;> simp [pyOr, strTruthy, hs]

/-- C1: the branch decision returns `next_node` when `condition_field` is
unset; otherwise, with one of the five operators and a condition value
set, it returns `next_on_success` exactly when the state's condition
field compares true against the condition value, and otherwise
`next_on_failure` if set, else `next_node`; in particular, with operator
">=" and value 0.8, field values 0.8 and 0.81 route to success and 0.79
routes to failure (or to `next_node` when no failure edge is set). -/
theorem c1_decideNext_branching (cfg : NodeConfig) (s : CodeReviewState) :
    (strTruthy cfg.condition_key = false → decideNext cfg s = .ok cfg.next_node) ∧
    (∀ (k : String) (v : Rat) (op : String) (t : Rat),
      cfg.condition_key = some k →
      s.getAttr k = some (.num v) →
      cfg.condition_op = some op →
      op ∈ [">=", ">", "<=", "<", "=="] →
      cfg.condition_value = some t →
      decideNext cfg s =
        .ok (if condHolds op v t then cfg.next_on_success
             else if strTruthy cfg.next_on_failure = true then cfg.next_on_failure
             else cfg.next_node)) ∧
    (decideNext c1Cfg (stQ (4/5)) = .ok (some "done") ∧
     decideNext c1Cfg (stQ (81/100)) = .ok (some "done") ∧
     decideNext c1Cfg (stQ (79/100)) = .ok (some "retry") ∧
     decideNext c1CfgNoFail (stQ (79/100)) = .ok (some "next")) := by
  refine ⟨?_, ?_, ?_, ?_, ?_, ?_⟩
  · intro h
    unfold decideNext
    rw [h]
    simp
  · intro k v op t hk hv hop _ ht
    have hkne : k ≠ "" := getAttr_num_key_ne_empty hv
    unfold decideNext
    rw [hk]
    simp only [strTruthy, hkne, if_false, Option.getD_some, hv, hop, ht,
      evalCmp_num, pyOr_eq_ite]
    by_cases hc : condHolds op v t = true
    · simp [hc]
    · simp only [Bool.not_eq_true] at hc
      simp [hc]
  all_goals
    simp [decideNext, c1Cfg, c1CfgNoFail, stQ, s0, CodeReviewState.getAttr,
      strTruthy, evalCmp, pyOr]
    all_goals norm_num

/-- C1 witness: the general branch statement applied at the spec's
concrete example (quality 0.81 against threshold 0.8). -/
theorem c1_witness :
    decideNext c1Cfg (stQ (81/100)) =
      .ok (if condHolds ">=" (81/100) (4/5) then c1Cfg.next_on_success
           else if strTruthy c1Cfg.next_on_failure = true then c1Cfg.next_on_failure
           else c1Cfg.next_node) :=
  (c1_decideNext_branching c1Cfg (stQ (81/100))).2.1 "quality_score" (81/100) ">=" (4/5)
    rfl (by simp [stQ, s0, CodeReviewState.getAttr]) rfl (by simp) rfl

/-- Branch node with an operator outside the supported set. -/
def c4Cfg : NodeConfig :=
  { name := "n", tool := "t", next_node := some "lin",
    condition_key := some "quality_score", condition_op := some "!=",
    condition_value := some (1/2) }

/-- C4: the claim asks the branch decision to fail fast with an invalid
graph error on an unsupported operator; the code instead leaves `is_ok`
at `False` and silently routes to the false branch fallback.  At the
failing input below the decision returns the plain linear edge and no
error. -/
theorem c4_unknown_op_silently_routes :
    decideNext c4Cfg (stQ (1/2)) = .ok (some "lin") := by
  simp [decideNext, c4Cfg, stQ, s0, CodeReviewState.getAttr, strTruthy, evalCmp, pyOr]

/-- Branch node with `condition_key` set but no operator and no value:
the incomplete condition triple of the claim. -/
def c9Cfg : NodeConfig :=
  { name := "n", tool := "t", next_node := some "lin",
    condition_key := some "quality_score", condition_op := none,
    condition_value := none }

/-- C9: the claim asks an incomplete condition triple to be rejected as
an invalid graph; the code instead returns `next_node`, silently treating
the node as a plain linear edge. -/
theorem c9_incomplete_triple_runs_as_linear :
    decideNext c9Cfg (stQ (1/2)) = .ok (some "lin") := by
  simp [decideNext, c9Cfg, stQ, s0, CodeReviewState.getAttr, strTruthy, evalCmp, pyOr]

/-- Tool of the self-loop example: increments `iteration` by one. -/
def incOp : ToolFunc := fun s => { s with iteration := s.iteration + 1 }

/-- Registry holding only the incrementing tool. -/
def incTools : String → Option ToolFunc := fun n => if n = "inc" then some incOp else none

/-- Self-loop node configuration (plain `next_node` edge back to itself). -/
def loopCfg : NodeConfig := { name := "a", tool := "inc", next_node := some "a" }

/-- Graph with a single self-loop edge, as in the spec's guard test. -/
def loopGraph : Graph := { id := "gloop", start_node := "a", nodes := [("a", loopCfg)] }

/-- Identity tool: leaves the state, in particular `iteration`, unchanged. -/
def idOp : ToolFunc := fun s => s

/-- Registry holding only the identity tool. -/
def idTools : String → Option ToolFunc := fun n => if n = "noop" then some idOp else none

/-- Self-loop node bound to the identity tool. -/
def idLoopCfg : NodeConfig := { name := "a", tool := "noop", next_node := some "a" }

/-- Self-loop graph whose tool never touches `iteration`. -/
def idLoopGraph : Graph :=
  { id := "gidloop", start_node := "a", nodes := [("a", idLoopCfg)] }

/-- Helper: a run whose loop condition is false is returned unchanged by
the loop at any fuel. -/
theorem runLoop_exit (g : Graph) (tools : String → Option ToolFunc) (maxIter : Int)
    (fuel : Nat) (run : GraphRun) (h : run.current_node = none ∨ run.finished = true) :
    runLoop g tools maxIter fuel run = .ok (some run) := by
  cases fuel <;> simp [runLoop, h]

/-- Helper: with the loop condition true, one unit of fuel runs one step. -/
theorem runLoop_succ_active (g : Graph) (tools : String → Option ToolFunc)
    (maxIter : Int) (fuel : Nat) (run r : GraphRun) (cur : String)
    (hc : run.current_node = some cur) (hf : run.finished = false)
    (hs : stepRun g tools maxIter run = .ok r) :
    runLoop g tools maxIter (fuel + 1) run = runLoop g tools maxIter fuel r := by
  simp [runLoop, hc, hf, hs]

/-- Helper: a raising step makes the whole loop raise. -/
theorem runLoop_succ_error (g : Graph) (tools : String → Option ToolFunc)
    (maxIter : Int) (fuel : Nat) (run : GraphRun) (cur : String) (e : PyError)
    (hc : run.current_node = some cur) (hf : run.finished = false)
    (hs : stepRun g tools maxIter run = .error e) :
    runLoop g tools maxIter (fuel + 1) run = .error e := by
  simp [runLoop, hc, hf, hs]

/-- Helper: the executing shape of one loop iteration, with the guard
passed and both lookups successful. -/
theorem stepRun_exec (g : Graph) (tools : String → Option ToolFunc) (maxIter : Int)
    (run : GraphRun) (cur : String) (cfg : NodeConfig) (f : ToolFunc)
    (hc : run.current_node = some cur) (hf : run.finished = false)
    (hg : ¬ maxIter ≤ run.state.iteration)
    (hn : dictGet g.nodes cur = some cfg) (ht : tools cfg.tool = some f) :
    stepRun g tools maxIter run =
      match decideNext cfg (f run.state) with
      | .error e => .error e
      | .ok none =>
        .ok { run with
              state := f run.state,
              log := run.log ++ [{ node := cfg.name, timestamp := run.log.length,
                                   state_snapshot := f run.state }],
              current_node := none,
              finished := true }
      | .ok (some nn) =>
        .ok { run with
              state := f run.state,
              log := run.log ++ [{ node := cfg.name, timestamp := run.log.length,
                                   state_snapshot := f run.state }],
              current_node := some nn } := by
  unfold stepRun
  rw [hc]
  simp [hf, hg, hn, ht]

/-- Helper: the linear branch decision of the self-loop node. -/
theorem decideNext_loopCfg (st : CodeReviewState) :
    decideNext loopCfg st = .ok (some "a") := by
  simp [decideNext, loopCfg, strTruthy]

/-- Helper: with `maxIterations = N`, starting the self-loop at
`iteration = N - k`, the loop performs exactly `k` more node executions
and then trips the guard, leaving the current node in place. -/
theorem c2_aux (N : Int) :
    ∀ (k : Nat) (st : CodeReviewState) (L : List ExecutionLogEntry) (rid gid : String),
      st.iteration + k = N →
      ∃ r, runLoop loopGraph incTools N (k + 1)
            { run_id := rid, graph_id := gid, current_node := some "a",
              state := st, log := L, finished := false } = .ok (some r) ∧
        r.finished = true ∧ r.current_node = some "a" ∧ r.log.length = L.length + k := by
  intro k
  induction k with
  | zero =>
    intro st L rid gid hit
    have hg : N ≤ st.iteration := by omega
    refine ⟨{ run_id := rid, graph_id := gid, current_node := some "a",
              state := st, log := L, finished := true }, ?_, rfl, rfl, by simp⟩
    simp [runLoop, stepRun, hg]
  | succ k ih =>
    intro st L rid gid hit
    have hg : ¬ N ≤ st.iteration := by omega
    have hd := decideNext_loopCfg (incOp st)
    have hstep : stepRun loopGraph incTools N
        { run_id := rid, graph_id := gid, current_node := some "a",
          state := st, log := L, finished := false } =
        .ok { run_id := rid, graph_id := gid, current_node := some "a",
              state := incOp st,
              log := L ++ [{ node := "a", timestamp := L.length,
                             state_snapshot := incOp st }],
              finished := false } := by
      rw [stepRun_exec loopGraph incTools N _ "a" loopCfg incOp rfl rfl hg
        (by simp [loopGraph, dictGet, loopCfg]) (by simp [loopCfg, incTools])]
      rw [hd]
      simp [loopCfg]
    obtain ⟨r, hr, hf, hc, hl⟩ := ih (incOp st)
      (L ++ [{ node := "a", timestamp := L.length, state_snapshot := incOp st }])
      rid gid (by simp [incOp]; omega)
    refine ⟨r, ?_, hf, hc, ?_⟩
    · rw [runLoop_succ_active loopGraph incTools N (k + 1) _ _ "a" rfl rfl hstep]
      exact hr
    · simp only [List.length_append, List.length_cons, List.length_nil] at hl
      omega

/-- C2: running the self-loop graph, whose tool increments
`state.iteration` by one per execution, from `iteration = 0` with
`maxIterations = N ≥ 1`, finishes with exactly `N` log entries (never
`N + 1`), and the guard trip leaves `currentNode` at the value it held at
that moment (the loop node itself). -/
theorem c2_iteration_guard (N : Int) (hN : 1 ≤ N)
    (st : CodeReviewState) (h0 : st.iteration = 0) :
    ∃ r, runLoop loopGraph incTools N (N.toNat + 1) (initRun loopGraph st) =
        .ok (some r) ∧
      r.finished = true ∧ r.log.length = N.toNat ∧ r.current_node = some "a" := by
  obtain ⟨r, hr, hf, hc, hl⟩ := c2_aux N N.toNat st [] "run-0" loopGraph.id (by omega)
  refine ⟨r, ?_, hf, ?_, hc⟩
  · simpa [initRun, loopGraph] using hr
  · simpa using hl

/-- C2 witness: the guard theorem at `N = 2` starting from the base state. -/
theorem c2_witness :
    ∃ r, runLoop loopGraph incTools 2 ((2 : Int).toNat + 1) (initRun loopGraph s0) =
        .ok (some r) ∧
      r.finished = true ∧ r.log.length = (2 : Int).toNat ∧ r.current_node = some "a" :=
  c2_iteration_guard 2 (by norm_num) s0 rfl

/-- Helper: the linear branch decision of the identity self-loop node. -/
theorem decideNext_idLoopCfg (st : CodeReviewState) :
    decideNext idLoopCfg st = .ok (some "a") := by
  simp [decideNext, idLoopCfg, strTruthy]

/-- Helper: on the identity self-loop at `iteration = 0`, the loop never
exits, whatever the fuel: the guard compares `20 ≤ 0` forever. -/
theorem c3_aux :
    ∀ (fuel : Nat) (st : CodeReviewState) (L : List ExecutionLogEntry) (rid gid : String),
      st.iteration = 0 →
      runLoop idLoopGraph idTools 20 fuel
        { run_id := rid, graph_id := gid, current_node := some "a",
          state := st, log := L, finished := false } = .ok none := by
  intro fuel
  induction fuel with
  | zero =>
    intro st L rid gid h0
    simp [runLoop]
  | succ fuel ih =>
    intro st L rid gid h0
    have hg : ¬ (20 : Int) ≤ st.iteration := by omega
    have hstep : stepRun idLoopGraph idTools 20
        { run_id := rid, graph_id := gid, current_node := some "a",
          state := st, log := L, finished := false } =
        .ok { run_id := rid, graph_id := gid, current_node := some "a",
              state := idOp st,
              log := L ++ [{ node := "a", timestamp := L.length,
                             state_snapshot := idOp st }],
              finished := false } := by
      rw [stepRun_exec idLoopGraph idTools 20 _ "a" idLoopCfg idOp rfl rfl hg
        (by simp [idLoopGraph, dictGet, idLoopCfg]) (by simp [idLoopCfg, idTools])]
      rw [decideNext_idLoopCfg]
      simp [idLoopCfg]
    rw [runLoop_succ_active idLoopGraph idTools 20 fuel _ _ "a" rfl rfl hstep]
    exact ih (idOp st) _ rid gid (by simp [idOp, h0])

/-- C3 counterexample: the claim quantifies over all registered
operations, including ones that never modify `state.iteration`; for the
identity-tool self-loop graph there is no step bound at all — the loop is
still running after every finite number of iterations, so `run_graph`
does not terminate on it. -/
theorem c3_counterexample :
    ¬ ∃ fuel : Nat,
      runLoop idLoopGraph idTools 20 fuel (initRun idLoopGraph s0) ≠ .ok none := by
  rintro ⟨fuel, hne⟩
  exact hne (c3_aux fuel s0 [] "run-0" idLoopGraph.id rfl)

/-- Helper: termination bound for the amended claim, by induction on the
available fuel. -/
theorem c3_amended_aux (g : Graph) (tools : String → Option ToolFunc) (maxIter : Int)
    (hinc : ∀ nm f, tools nm = some f → ∀ s : CodeReviewState,
      s.iteration < (f s).iteration) :
    ∀ (fuel : Nat) (run : GraphRun),
      (maxIter - run.state.iteration).toNat < fuel →
      runLoop g tools maxIter fuel run ≠ .ok none := by
  intro fuel
  induction fuel with
  | zero =>
    intro run hfuel
    omega
  | succ fuel ih =>
    intro run hfuel
    by_cases hcond : run.current_node = none ∨ run.finished = true
    · rw [runLoop_exit g tools maxIter (fuel + 1) run hcond]
      simp
    · push_neg at hcond
      obtain ⟨hcne, hfin⟩ := hcond
      simp only [ne_eq, Bool.not_eq_true] at hfin
      obtain ⟨cur, hcur⟩ : ∃ cur, run.current_node = some cur := by
        cases h : run.current_node with
        | none => exact absurd h hcne
        | some c => exact ⟨c, rfl⟩
      cases hstep : stepRun g tools maxIter run with
      | error e =>
        rw [runLoop_succ_error g tools maxIter fuel run cur e hcur hfin hstep]
        simp
      | ok r =>
        rw [runLoop_succ_active g tools maxIter fuel run r cur hcur hfin hstep]
        unfold stepRun at hstep
        rw [hcur] at hstep
        by_cases hg : maxIter ≤ run.state.iteration
        · simp [hfin, hg] at hstep
          obtain rfl := hstep
          rw [runLoop_exit g tools maxIter fuel _ (Or.inr rfl)]
          simp
        · simp only [hfin, Bool.false_eq_true, if_false, if_neg hg] at hstep
          cases hlook : dictGet g.nodes cur with
          | none => simp [hlook] at hstep
          | some cfg =>
            cases htool : tools cfg.tool with
            | none => simp [hlook, htool] at hstep
            | some f =>
              have hit : run.state.iteration < (f run.state).iteration :=
                hinc cfg.tool f htool run.state
              cases hdec : decideNext cfg (f run.state) with
              | error e => simp [hlook, htool, hdec] at hstep
              | ok nxt =>
                cases nxt with
                | none =>
                  simp only [hlook, htool, hdec] at hstep
                  obtain rfl := Except.ok.inj hstep
                  rw [runLoop_exit g tools maxIter fuel _ (Or.inr rfl)]
                  simp
                | some nn =>
                  simp only [hlook, htool, hdec] at hstep
                  obtain rfl := Except.ok.inj hstep
                  apply ih
                  show (maxIter - (f run.state).iteration).toNat < fuel
                  omega

/-- C3 amended: `run_graph` terminates — the loop completes (normally or
with an exception) within a bounded number of iterations — for every
graph and initial run, provided every registered operation strictly
increases `state.iteration`; the bound is `maxIterations` minus the
starting iteration. -/
theorem c3_amended_termination (g : Graph) (tools : String → Option ToolFunc)
    (maxIter : Int) (run : GraphRun)
    (hinc : ∀ nm f, tools nm = some f → ∀ s : CodeReviewState,
      s.iteration < (f s).iteration) :
    ∃ fuel : Nat, runLoop g tools maxIter fuel run ≠ .ok none :=
  ⟨(maxIter - run.state.iteration).toNat + 1,
    c3_amended_aux g tools maxIter hinc ((maxIter - run.state.iteration).toNat + 1)
      run (by omega)⟩

/-- C3 amended witness: the incrementing registry satisfies the
strict-increase hypothesis, so the self-loop run terminates. -/
theorem c3_amended_witness :
    ∃ fuel : Nat,
      runLoop loopGraph incTools 20 fuel (initRun loopGraph s0) ≠ .ok none := by
  refine c3_amended_termination loopGraph incTools 20 (initRun loopGraph s0) ?_
  intro nm f h s
  by_cases hn : nm = "inc"
  · subst hn
    have hf : f = incOp := by
      have hsome : some f = some incOp := by
        rw [← h]
        simp [incTools]
      exact Option.some.inj hsome
    subst hf
    simp [incOp]
  · simp [incTools, hn] at h

/-- Graph whose start node is absent from the node mapping: the simplest
dangling node reference. -/
def ghostGraph : Graph :=
  { id := "g5a", start_node := "ghost",
    nodes := [("real", { name := "real", tool := "noop", next_node := none })] }

/-- Graph whose single node names an unregistered tool. -/
def missingToolGraph : Graph :=
  { id := "g5b", start_node := "a",
    nodes := [("a", { name := "a", tool := "nope", next_node := none })] }

/-- C5: the claim asks for an invalid-graph error on a dangling node
reference, distinct from the not-found error for a missing operation; the
code raises the same `KeyError` exception class in both situations (bare
for the dict access, with a message for the registry), so the two
failures are not distinct error kinds, only different message strings. -/
theorem c5_dangling_and_missing_same_kind :
    runLoop ghostGraph idTools 20 5 (initRun ghostGraph s0) =
      .error (.keyError "ghost") ∧
    runLoop missingToolGraph idTools 20 5 (initRun missingToolGraph s0) =
      .error (.keyError "Tool nope not registered") := by
  constructor
  · simp [runLoop, stepRun, initRun, ghostGraph, dictGet, s0]
  · simp [runLoop, stepRun, initRun, missingToolGraph, dictGet, idTools, s0]

/-- C7: `RunStore.create` fails with the graph-store `KeyError`
(not-found) when the graph id is unknown, leaving the run store
unchanged — no run record is created; on a known graph it returns a run
carrying the injected fresh id, `current_node` at the graph's start node,
the given initial state, an empty log and `finished = false`, and that
run is persisted in the store, whose graph store is untouched. -/
theorem c7_runstore_create (rs : RunStore) (gid : String) (st : CodeReviewState)
    (rid : String) :
    (dictGet rs.graph_store.graphs gid = none →
      (rs.create gid st rid).1 =
        .error (.keyError ("Graph " ++ gid ++ " not found")) ∧
      (rs.create gid st rid).2 = rs) ∧
    (∀ g, dictGet rs.graph_store.graphs gid = some g →
      dictGet rs.runs rid = none →
      ∃ run, (rs.create gid st rid).1 = .ok run ∧
        run.run_id = rid ∧ run.graph_id = gid ∧
        run.current_node = some g.start_node ∧ run.state = st ∧
        run.log = [] ∧ run.finished = false ∧
        dictGet (rs.create gid st rid).2.runs rid = some run ∧
        (rs.create gid st rid).2.graph_store = rs.graph_store) := by
  constructor
  · intro h
    constructor <;> simp [RunStore.create, GraphStore.get, h]
  · intro g hg hfresh
    refine ⟨{ run_id := rid, graph_id := gid, current_node := some g.start_node,
              state := st, log := [], finished := false },
        ?_, rfl, rfl, rfl, rfl, rfl, rfl, ?_, ?_⟩
    · simp [RunStore.create, GraphStore.get, hg]
    · simp [RunStore.create, GraphStore.get, hg, dictGet]
    · simp [RunStore.create, GraphStore.get, hg]

/-- Sample graph for the run-store witness. -/
def gsample : Graph := { id := "g1", start_node := "start", nodes := [] }

/-- Run store holding the sample graph and no runs. -/
def rs0 : RunStore := { graph_store := { graphs := [("g1", gsample)] }, runs := [] }

/-- C7 witness: creating a run for the known graph of the sample store. -/
theorem c7_witness :
    ∃ run, (rs0.create "g1" s0 "rid-1").1 = .ok run ∧
      run.run_id = "rid-1" ∧ run.graph_id = "g1" ∧
      run.current_node = some gsample.start_node ∧ run.state = s0 ∧
      run.log = [] ∧ run.finished = false ∧
      dictGet (rs0.create "g1" s0 "rid-1").2.runs "rid-1" = some run ∧
      (rs0.create "g1" s0 "rid-1").2.graph_store = rs0.graph_store :=
  (c7_runstore_create rs0 "g1" s0 "rid-1").2 gsample
    (by simp [rs0, dictGet]) (by simp [rs0, dictGet])

/-- C10: registering a non-callable raises `TypeError` and leaves the
registry unchanged; registering a callable succeeds, stores it under the
name overwriting any previous entry, so `get` returns the last
registered callable. -/
theorem c10_register_non_callable_and_overwrite (r : ToolRegistry) (nm : String) :
    (∀ s, r.register nm (.notCallable s) =
      (some (.typeError "Tool must be callable"), r)) ∧
    (∀ f : ToolFunc, (r.register nm (.callable f)).1 = none ∧
      ((r.register nm (.callable f)).2).get nm = .ok f) ∧
    (∀ f f' : ToolFunc,
      (((r.register nm (.callable f)).2).register nm (.callable f')).2.get nm =
        .ok f') := by
  refine ⟨fun s => rfl, fun f => ⟨rfl, ?_⟩, fun f f' => ?_⟩
  · simp [ToolRegistry.register, ToolRegistry.get]
  · simp [ToolRegistry.register, ToolRegistry.get]

/-- Helper: one loop iteration either leaves the log alone (guard trip or
exited run) or appends exactly one entry whose snapshot is the state the
run holds immediately after the step. -/
theorem stepRun_log (g : Graph) (tools : String → Option ToolFunc) (maxIter : Int)
    (run r : GraphRun) (h : stepRun g tools maxIter run = .ok r) :
    r.log = run.log ∨
      ∃ nm, r.log = run.log ++
        [{ node := nm, timestamp := run.log.length, state_snapshot := r.state }] := by
  unfold stepRun at h
  split at h
  · obtain rfl := Except.ok.inj h
    exact Or.inl rfl
  · split at h
    · obtain rfl := Except.ok.inj h
      exact Or.inl rfl
    · split at h
      · obtain rfl := Except.ok.inj h
        exact Or.inl rfl
      · split at h
        · cases h
        · split at h
          · cases h
          · simp only [] at h
            split at h
            · cases h
            · obtain rfl := Except.ok.inj h
              exact Or.inr ⟨_, rfl⟩
            · obtain rfl := Except.ok.inj h
              exact Or.inr ⟨_, rfl⟩

/-- Helper: the log only ever grows along iterated steps. -/
theorem iterRun_log_extends (g : Graph) (tools : String → Option ToolFunc)
    (maxIter : Int) :
    ∀ (k : Nat) (run r : GraphRun),
      iterRun g tools maxIter k run = .ok r → ∃ t, r.log = run.log ++ t := by
  intro k
  induction k with
  | zero =>
    intro run r h
    obtain rfl := Except.ok.inj h
    exact ⟨[], by simp⟩
  | succ k ih =>
    intro run r h
    cases hs : stepRun g tools maxIter run with
    | error e =>
      unfold iterRun at h
      rw [hs] at h
      cases h
    | ok r1 =>
      unfold iterRun at h
      rw [hs] at h
      obtain ⟨t2, ht2⟩ := ih r1 r h
      rcases stepRun_log g tools maxIter run r1 hs with h1 | ⟨nm, h1⟩
      · exact ⟨t2, by rw [ht2, h1]⟩
      · exact ⟨[{ node := nm, timestamp := run.log.length,
                  state_snapshot := r1.state }] ++ t2,
          by rw [ht2, h1, List.append_assoc]⟩

/-- C8: every logged entry carries the state value at the moment of
logging, and a snapshot once logged is never changed by the rest of the
run — the log of any earlier observation of the run is an unchanged
initial segment of the log of any later observation. -/
theorem c8_snapshots_immutable (g : Graph) (tools : String → Option ToolFunc)
    (maxIter : Int) :
    (∀ (j k : Nat) (run r1 r2 : GraphRun),
      iterRun g tools maxIter j run = .ok r1 →
      iterRun g tools maxIter k r1 = .ok r2 →
      ∃ t, r2.log = r1.log ++ t) ∧
    (∀ run r, stepRun g tools maxIter run = .ok r →
      r.log = run.log ∨
        ∃ nm, r.log = run.log ++
          [{ node := nm, timestamp := run.log.length, state_snapshot := r.state }]) := by
  constructor
  · intro j k run r1 r2 h1 h2
    exact iterRun_log_extends g tools maxIter k r1 r2 h2
  · exact stepRun_log g tools maxIter

/-- State of the self-loop run after one increment. -/
def c8st1 : CodeReviewState := { code := "", iteration := 1 }

/-- The self-loop run as observed after one loop iteration. -/
def c8r2 : GraphRun :=
  { run_id := "run-0", graph_id := "gloop", current_node := some "a",
    state := c8st1,
    log := [{ node := "a", timestamp := 0, state_snapshot := c8st1 }],
    finished := false }

/-- C8 witness: observing the self-loop run before and after one step. -/
theorem c8_witness : ∃ t, c8r2.log = (initRun loopGraph s0).log ++ t :=
  (c8_snapshots_immutable loopGraph incTools 20).1 0 1
    (initRun loopGraph s0) (initRun loopGraph s0) c8r2 rfl rfl

/-- Inductive description of the plain `next_node` chain from a cursor:
each step must find its node in the graph and its tool in the registry,
must pass the iteration guard in the state it is entered with, and the
state is advanced by the node's tool; the chain ends when the cursor is
null.  This is the traversal the spec describes for graphs without
branch conditions. -/
inductive ChainRun (g : Graph) (tools : String → Option ToolFunc) (maxIter : Int) :
    Option String → CodeReviewState → List String → CodeReviewState → Prop where
  | nil (s : CodeReviewState) : ChainRun g tools maxIter none s [] s
  | cons (n : String) (cfg : NodeConfig) (f : ToolFunc) (s : CodeReviewState)
      (rest : List String) (sF : CodeReviewState)
      (hlook : dictGet g.nodes n = some cfg)
      (htool : tools cfg.tool = some f)
      (hguard : s.iteration < maxIter)
      (hrest : ChainRun g tools maxIter cfg.next_node (f s) rest sF) :
      ChainRun g tools maxIter (some n) s (n :: rest) sF

/-- Helper: inversion of a chain with a nonempty name list. -/
theorem chain_cons_inv (g : Graph) (tools : String → Option ToolFunc) (maxIter : Int)
    {c : Option String} {s : CodeReviewState} {m : String} {rest : List String}
    {sF : CodeReviewState}
    (h : ChainRun g tools maxIter c s (m :: rest) sF) :
    ∃ cfg f, c = some m ∧ dictGet g.nodes m = some cfg ∧ tools cfg.tool = some f ∧
      s.iteration < maxIter ∧ ChainRun g tools maxIter cfg.next_node (f s) rest sF := by
  cases h with
  | cons _ cfg f _ _ _ hlook htool hguard hrest =>
    exact ⟨cfg, f, rfl, hlook, htool, hguard, hrest⟩

/-- Helper: inversion of a chain with an empty name list. -/
theorem chain_nil_inv (g : Graph) (tools : String → Option ToolFunc) (maxIter : Int)
    {c : Option String} {s : CodeReviewState} {sF : CodeReviewState}
    (h : ChainRun g tools maxIter c s [] sF) : c = none ∧ sF = s := by
  cases h
  exact ⟨rfl, rfl⟩

/-- Helper: the list of visited names is determined by the cursor alone —
with no branch conditions, routing never depends on the state. -/
theorem chain_names_unique (g : Graph) (tools : String → Option ToolFunc) (maxIter : Int)
    {c : Option String} {s₁ : CodeReviewState} {l₁ : List String} {sF₁ : CodeReviewState}
    (h₁ : ChainRun g tools maxIter c s₁ l₁ sF₁) :
    ∀ {s₂ l₂ sF₂}, ChainRun g tools maxIter c s₂ l₂ sF₂ → l₁ = l₂ := by
  induction h₁ with
  | nil s =>
    intro s₂ l₂ sF₂ h₂
    cases h₂
    rfl
  | cons n cfg f s rest sF hlook htool hguard hrest ih =>
    intro s₂ l₂ sF₂ h₂
    cases h₂ with
    | cons _ cfg₂ f₂ _ rest₂ _ hlook₂ htool₂ hguard₂ hrest₂ =>
      rw [hlook] at hlook₂
      obtain rfl := Option.some.inj hlook₂
      rw [htool] at htool₂
      obtain rfl := Option.some.inj htool₂
      rw [ih hrest₂]

/-- Helper: any decomposition of a chain around a name yields a chain
starting at that name. -/
theorem chain_suffix (g : Graph) (tools : String → Option ToolFunc) (maxIter : Int) :
    ∀ (pre : List String) {c : Option String} {s : CodeReviewState} {l : List String}
      {sF : CodeReviewState} {m : String} {post : List String},
      ChainRun g tools maxIter c s l sF → l = pre ++ m :: post →
      ∃ s', ChainRun g tools maxIter (some m) s' (m :: post) sF := by
  intro pre
  induction pre with
  | nil =>
    intro c s l sF m post h hl
    simp only [List.nil_append] at hl
    subst hl
    obtain ⟨cfg, f, rfl, _, _, _, _⟩ := chain_cons_inv g tools maxIter h
    exact ⟨s, h⟩
  | cons x pre ih =>
    intro c s l sF m post h hl
    subst hl
    obtain ⟨cfg, f, rfl, hlook, htool, hguard, hrest⟩ := chain_cons_inv g tools maxIter h
    exact ih hrest rfl

/-- Helper: a terminating chain never revisits a node — if it did, the
purely structural routing would repeat forever instead of reaching null. -/
theorem chain_nodup (g : Graph) (tools : String → Option ToolFunc) (maxIter : Int)
    {c : Option String} {s : CodeReviewState} {l : List String} {sF : CodeReviewState}
    (h : ChainRun g tools maxIter c s l sF) : l.Nodup := by
  induction h with
  | nil s => simp
  | cons n cfg f s rest sF hlook htool hguard hrest ih =>
    simp only [List.nodup_cons]
    refine ⟨?_, ih⟩
    intro hmem
    obtain ⟨pre, post, hsplit⟩ := List.append_of_mem hmem
    obtain ⟨s', hchain⟩ := chain_suffix g tools maxIter pre hrest hsplit
    have hfull : ChainRun g tools maxIter (some n) s (n :: rest) sF :=
      .cons n cfg f s rest sF hlook htool hguard hrest
    have heads := chain_names_unique g tools maxIter hfull hchain
    have hrp : rest = post := (List.cons.inj heads).2
    rw [hsplit] at hrp
    have hlen := congrArg List.length hrp
    simp [List.length_append] at hlen
    omega

/-- Helper: a successful dict lookup is a membership fact. -/
theorem dictGet_mem {β : Type} :
    ∀ (l : List (String × β)) (n : String) (v : β),
      dictGet l n = some v → (n, v) ∈ l := by
  intro l
  induction l with
  | nil =>
    intro n v h
    cases h
  | cons p rest ih =>
    intro n v h
    obtain ⟨k, w⟩ := p
    unfold dictGet at h
    by_cases hk : k = n
    · rw [if_pos hk] at h
      obtain rfl := Option.some.inj h
      subst hk
      exact .head _
    · rw [if_neg hk] at h
      exact .tail _ (ih n v h)

/-- Helper: on a condition-free graph, the engine loop follows a chain
exactly, appending one log entry per chain node, and terminates on the
chain's final null edge. -/
theorem c6_aux (g : Graph) (tools : String → Option ToolFunc) (maxIter : Int)
    (hnc : ∀ p ∈ g.nodes, (p.2 : NodeConfig).condition_key = none)
    (hnm : ∀ p ∈ g.nodes, (p.2 : NodeConfig).name = p.1) :
    ∀ (names : List String) (n : String) (s : CodeReviewState) (sF : CodeReviewState),
      ChainRun g tools maxIter (some n) s names sF →
      ∀ (fuel : Nat) (L : List ExecutionLogEntry) (rid gid : String),
        names.length ≤ fuel →
        ∃ r, runLoop g tools maxIter fuel
            { run_id := rid, graph_id := gid, current_node := some n,
              state := s, log := L, finished := false } = .ok (some r) ∧
          r.log.map (fun e => e.node) = L.map (fun e => e.node) ++ names ∧
          r.log.length = L.length + names.length ∧
          r.finished = true ∧ r.current_node = none ∧ r.state = sF := by
  intro names
  induction names with
  | nil =>
    intro n s sF h fuel L rid gid hfuel
    cases h
  | cons m rest ih =>
    intro n s sF h fuel L rid gid hfuel
    obtain ⟨cfg, f, hcm, hlook, htool, hg, hrest⟩ := chain_cons_inv g tools maxIter h
    obtain rfl := Option.some.inj hcm
    obtain ⟨fu, rfl⟩ : ∃ fu, fuel = fu + 1 := by
      cases fuel with
      | zero => simp at hfuel
      | succ fu => exact ⟨fu, rfl⟩
    have hgneg : ¬ maxIter ≤ s.iteration := by omega
    have hck : cfg.condition_key = none := hnc (n, cfg) (dictGet_mem _ _ _ hlook)
    have hcfgname : cfg.name = n := hnm (n, cfg) (dictGet_mem _ _ _ hlook)
    have hdec : decideNext cfg (f s) = .ok cfg.next_node := by
      simp [decideNext, hck, strTruthy]
    have hstep := stepRun_exec g tools maxIter
      { run_id := rid, graph_id := gid, current_node := some n,
        state := s, log := L, finished := false } n cfg f rfl rfl hgneg hlook htool
    rw [hdec] at hstep
    cases rest with
    | nil =>
      obtain ⟨hnn, hsf⟩ := chain_nil_inv g tools maxIter hrest
      rw [hnn] at hstep
      simp only [] at hstep
      rw [runLoop_succ_active g tools maxIter fu _ _ n rfl rfl hstep]
      rw [runLoop_exit g tools maxIter fu _ (Or.inl rfl)]
      refine ⟨_, rfl, ?_, ?_, rfl, rfl, hsf.symm⟩
      · simp [hcfgname]
      · simp
    | cons m' rest' =>
      obtain ⟨cfg', f', hnn, _, _, _, _⟩ := chain_cons_inv g tools maxIter hrest
      rw [hnn] at hstep hrest
      simp only [] at hstep
      rw [runLoop_succ_active g tools maxIter fu _ _ n rfl rfl hstep]
      obtain ⟨r, hr, hmap, hlen, hfin, hcur, hst⟩ := ih m' (f s) sF hrest fu
        (L ++ [{ node := cfg.name, timestamp := L.length, state_snapshot := f s }])
        rid gid (by simp at hfuel ⊢; omega)
      refine ⟨r, hr, ?_, ?_, hfin, hcur, hst⟩
      · rw [hmap]
        simp [hcfgname]
      · rw [hlen]
        simp
        omega

/-- C6: on a graph in which no node has a branch condition set, the run
visits exactly the nodes of the `next_node` chain from the start node, in
order, stopping at the first null successor; the log records one entry
per chain node, and because a terminating chain never revisits a node,
the log length equals the number of distinct nodes visited.  The chain
hypothesis carries the claim's proviso that every state entering a node
is still below the iteration guard. -/
theorem c6_linear_traversal (g : Graph) (tools : String → Option ToolFunc)
    (maxIter : Int) (s : CodeReviewState) (names : List String)
    (sF : CodeReviewState) (fuel : Nat)
    (hnc : ∀ p ∈ g.nodes, (p.2 : NodeConfig).condition_key = none)
    (hnm : ∀ p ∈ g.nodes, (p.2 : NodeConfig).name = p.1)
    (hchain : ChainRun g tools maxIter (some g.start_node) s names sF)
    (hfuel : names.length ≤ fuel) :
    ∃ r, runLoop g tools maxIter fuel (initRun g s) = .ok (some r) ∧
      r.log.map (fun e => e.node) = names ∧
      r.log.length = names.dedup.length ∧
      r.finished = true ∧ r.current_node = none := by
  obtain ⟨r, hr, hmap, hlen, hfin, hcur, _⟩ :=
    c6_aux g tools maxIter hnc hnm names g.start_node s sF hchain fuel [] "run-0" g.id
      hfuel
  have hnd : names.Nodup := chain_nodup g tools maxIter hchain
  refine ⟨r, hr, by simpa using hmap, ?_, hfin, hcur⟩
  rw [List.Nodup.dedup hnd]
  simpa using hlen

/-- First node of the linear two-node witness graph. -/
def linCfgA : NodeConfig := { name := "a", tool := "noop", next_node := some "b" }

/-- Second, terminal node of the linear witness graph. -/
def linCfgB : NodeConfig := { name := "b", tool := "noop", next_node := none }

/-- A linear two-node graph with no branch conditions. -/
def linGraph : Graph :=
  { id := "glin", start_node := "a", nodes := [("a", linCfgA), ("b", linCfgB)] }

/-- C6 witness: the linear two-node graph visits exactly a then b. -/
theorem c6_witness :
    ∃ r, runLoop linGraph idTools 20 2 (initRun linGraph s0) = .ok (some r) ∧
      r.log.map (fun e => e.node) = ["a", "b"] ∧
      r.log.length = (["a", "b"] : List String).dedup.length ∧
      r.finished = true ∧ r.current_node = none :=
  c6_linear_traversal linGraph idTools 20 s0 ["a", "b"] s0 2 (by decide) (by decide)
    (ChainRun.cons "a" linCfgA idOp s0 ["b"] s0 rfl rfl (by decide)
      (ChainRun.cons "b" linCfgB idOp s0 [] s0 rfl rfl (by decide)
        (ChainRun.nil s0)))
    (by decide)
